import Mathlib

/-!
Verification of the DesktopImage repository (AppImage → desktop-entry
synchronizer) against its natural-language specification.

The development shallowly embeds the Go sources:
  * package `config` (ConfManager: load, validate, watch, reload) and
  * package `fs` (FManager: per-rule watch loops, desktop-entry creation,
    reconciliation on config change)
as pure Lean definitions.  Filesystem reads, TOML parsing and fsnotify
event delivery are external effects; they enter the embedding as explicit
parameters (file contents, parse functions, event values), while the logic
that the repository itself implements (validation, string formatting, path
manipulation, branch structure of the event loops, the reload assignment,
the reconciliation bookkeeping) is translated directly from the source.
Pointer-valued state (`cm.conf *Config`) is embedded with an explicit heap
(`Nat → Config` plus an address) so that in-place mutation and pointer
replacement are distinguishable.
-/

namespace DesktopImage

/-- Go struct `config.Watcher` (config package): one watch rule. -/
structure Watcher where
  AppPath : String
  DesktopPath : String
  IconPath : String
  Categories : String
deriving DecidableEq, Repr

/-- Go struct `config.Config`: the global flag plus the rule list
(field `Watcher []Watcher`). -/
structure Config where
  AutoGrantExecutable : Bool
  Watcher : List Watcher
deriving DecidableEq, Repr

/-- Go `config.valid(conf *Config) bool`.  A nil pointer is `none`. -/
def valid : Option Config → Bool
  | none => false
  | some conf =>
    match conf.Watcher with
    | [] => false
    | w0 :: _ =>
      (w0.AppPath != "") && (w0.DesktopPath != "") && (w0.Categories != "")

/-! ## String and path helpers

Counterparts of the Go standard-library calls the sources make
(`strings.HasSuffix`, `strings.TrimSuffix`, `filepath.Base`,
`filepath.Join` and its lexical `Clean`).  Strings are handled through
their character lists (`String.data`). -/

/-- Go `strings.HasSuffix(s, suffix)`. -/
def hasSuffix (s suffix : String) : Bool :=
  suffix.data.isSuffixOf s.data

/-- Go `strings.TrimSuffix(s, suffix)`: drop the suffix when present. -/
def trimSuffix (s suffix : String) : String :=
  if suffix.data.isSuffixOf s.data then
    ⟨s.data.take (s.data.length - suffix.data.length)⟩
  else s

/-- Go `filepath.Base(path)` (unix rules): `"."` for the empty path, strip
trailing slashes, return `"/"` if nothing remains, else the part after the
final slash. -/
def filepathBase (p : String) : String :=
  if p = "" then "."
  else
    let l1 := (p.data.reverse.dropWhile (fun c => c = '/')).reverse
    if l1 = [] then "/"
    else ⟨(l1.reverse.takeWhile (fun c => c != '/')).reverse⟩

/-- Split a character list at every occurrence of `sep`; always returns at
least one (possibly empty) chunk, like Go's `strings.Split`. -/
def splitOnChar (sep : Char) : List Char → List (List Char)
  | [] => [[]]
  | c :: cs =>
    let r := splitOnChar sep cs
    if c = sep then [] :: r
    else (c :: r.headD []) :: r.tail

/-- Each chunk followed by a newline, concatenated (the shape of the
generated desktop-entry content). -/
def unlines (ls : List (List Char)) : List Char :=
  ls.foldr (fun l acc => l ++ '\n' :: acc) []

/-- One step of Go `path.Clean`'s element processing: push one path
component onto the (reversed) output stack.  `rooted` tells whether the
path began with a slash. -/
def cleanPush (rooted : Bool) (acc : List (List Char)) (comp : List Char) :
    List (List Char) :=
  if comp = [] || comp = ['.'] then acc
  else if comp = ['.', '.'] then
    match acc with
    | [] => if rooted then [] else [['.', '.']]
    | a :: rest => if a = ['.', '.'] then comp :: acc else rest
  else comp :: acc

/-- Go `filepath.Clean(path)` (unix, lexical normalization). -/
def pathClean (p : String) : String :=
  if p = "" then "."
  else
    let rooted := p.data.head? = some '/'
    let comps := splitOnChar '/' p.data
    let out := (comps.foldl (cleanPush rooted) []).reverse
    let joined : String := ⟨List.intercalate ['/'] out⟩
    if rooted then "/" ++ joined
    else if joined = "" then "." else joined

/-- Go `filepath.Join(a, b)`: join the non-empty elements with a slash and
clean the result; empty when both elements are empty. -/
def filepathJoin (a b : String) : String :=
  if a = "" && b = "" then ""
  else if a = "" then pathClean b
  else if b = "" then pathClean a
  else pathClean (a ++ "/" ++ b)

/-! ## Directory watcher (Go package `fs`)

`startWatching`'s event loop (monitor.go lines 89-119) blocks on a select
over the cancellation context and the fsnotify event channel.  The loop
body is embedded as a step function over explicit inputs; the success of
the external file write/remove and of the `update-desktop-database`
invocation enter as boolean parameters. -/

/-- fsnotify event-kind bits carried by an event. -/
structure Op where
  create : Bool
  write : Bool
  remove : Bool
  rename : Bool
  chmod : Bool
deriving DecidableEq, Repr

/-- An fsnotify event: affected path plus operation bits. -/
structure Event where
  name : String
  op : Op
deriving DecidableEq, Repr

/-- The externally visible filesystem effects a loop iteration attempts. -/
inductive FsAction where
  | writeFile (path content : String)
  | removeFile (path : String)
  | updateDB (dir : String)
deriving DecidableEq, Repr

/-- One input to the select loop: either the context was cancelled or an
event arrived.  `fileOpOk` is the outcome of the write/remove the handler
performs; `dbOk` the outcome of the desktop-database refresh. -/
inductive LoopInput where
  | ctxDone
  | event (ev : Event) (fileOpOk : Bool) (dbOk : Bool)
deriving DecidableEq, Repr

/-- Whether a loop iteration returns out of the loop or keeps looping. -/
inductive Control where
  | stop
  | cont
deriving DecidableEq, Repr

/-- Result of a single loop-body iteration. -/
structure StepResult where
  control : Control
  actions : List FsAction
deriving DecidableEq, Repr

/-- Go `fs.createDesktopFile`'s `Sprintf` content (monitor.go lines
138-148): the fixed `[Desktop Entry]` block plus an `Icon=` line when the
rule carries an icon path. -/
def createDesktopFileContent (appName : String) (w : Watcher) : String :=
  let content :=
    "[Desktop Entry]\nType=Application\nName=" ++ appName ++
    "\nExec=" ++ w.AppPath ++ "/" ++ (appName ++ ".AppImage") ++
    "\nTerminal=false\nCategories=" ++ w.Categories ++ "\n"
  if w.IconPath != "" then content ++ ("Icon=" ++ w.IconPath ++ "\n")
  else content

/-- Go `fs.createDesktopFile`'s target path (monitor.go line 137). -/
def createDesktopFilePath (appName : String) (w : Watcher) : String :=
  filepathJoin w.DesktopPath (appName ++ ".desktop")

/-- The body of `startWatching`'s for/select loop (monitor.go lines
89-119).  Only the `ctx.Done()` arm returns; every event arm falls through
to the next iteration, whether or not the file operation or the database
refresh succeeded (errors are only logged). -/
def startWatchingStep (w : Watcher) : LoopInput → StepResult
  | .ctxDone => ⟨.stop, []⟩
  | .event ev fileOpOk _dbOk =>
    if ev.op.create then
      if hasSuffix ev.name ".AppImage" then
        let appName := trimSuffix (filepathBase ev.name) ".AppImage"
        ⟨.cont,
          FsAction.writeFile (createDesktopFilePath appName w)
              (createDesktopFileContent appName w)
            :: (if fileOpOk then [FsAction.updateDB w.DesktopPath] else [])⟩
      else ⟨.cont, []⟩
    else if ev.op.remove || ev.op.rename then
      if hasSuffix ev.name ".AppImage" then
        let appName := trimSuffix (filepathBase ev.name) ".AppImage"
        ⟨.cont,
          FsAction.removeFile
              (filepathJoin w.DesktopPath (appName ++ ".desktop"))
            :: (if fileOpOk then [FsAction.updateDB w.DesktopPath] else [])⟩
      else ⟨.cont, []⟩
    else ⟨.cont, []⟩

/-- Run the loop over a finite input trace: accumulated actions plus
whether the loop is still running afterwards (`false` once the
cancellation arm returned). -/
def runLoop (w : Watcher) : List LoopInput → List FsAction × Bool
  | [] => ([], true)
  | inp :: rest =>
    let r := startWatchingStep w inp
    match r.control with
    | .stop => (r.actions, false)
    | .cont => (r.actions ++ (runLoop w rest).1, (runLoop w rest).2)

/-- The file writes among a list of attempted actions. -/
def writeActions (acts : List FsAction) : List (String × String) :=
  acts.filterMap fun a =>
    match a with
    | .writeFile p c => some (p, c)
    | _ => none

/-! ## Desktop-entry parsing (for the round-trip property)

The repository only writes desktop entries; it contains no parser.  The
spec's round-trip property (§8) reads the file back, so the reader is
modelled from the spec's description of the format (§6). -/

/-- Try to strip `key ++ "="` from the front of a line, returning the
value. -/
def dropKV : List Char → List Char → Option (List Char)
  | [], l =>
    match l with
    | '=' :: v => some v
    | _ => none
  | _ :: _, [] => none
  | k :: ks, c :: cs => if c = k then dropKV ks cs else none

/-- First line carrying `key=value`, if any. -/
def findField (key : List Char) : List (List Char) → Option (List Char)
  | [] => none
  | l :: ls =>
    match dropKV key l with
    | some v => some v
    | none => findField key ls

/-- Parsed desktop-entry fields (each `none` when the key is absent). -/
structure DesktopEntry where
  typeField : Option (List Char)
  nameField : Option (List Char)
  execField : Option (List Char)
  terminalField : Option (List Char)
  categoriesField : Option (List Char)
  iconField : Option (List Char)
deriving DecidableEq, Repr

/-- Modelled from the spec: the repository writes desktop-entry files but
has no reader for them; spec §6 describes the written artifact as a
"plain-text key/value format under a `[Desktop Entry]` header with keys
`Type`, `Name`, `Exec`, `Terminal`, `Categories`, and optionally `Icon`",
so parsing splits the content into lines and extracts each key's value. -/
def parseDesktopEntry (content : String) : DesktopEntry :=
  let lines := splitOnChar '\n' content.data
  ⟨findField "Type".data lines, findField "Name".data lines,
   findField "Exec".data lines, findField "Terminal".data lines,
   findField "Categories".data lines, findField "Icon".data lines⟩

/-! ## Config manager state (Go package `config`)

`cm.conf` is a pointer to a `Config` and `reload` (monitor.go lines
310-324) assigns through it (`cm.conf.AutoGrantExecutable = ...;
cm.conf.Watcher = ...`).  To make pointer identity observable, the heap of
Config objects is explicit: a function from addresses to objects plus the
address stored in the manager's `conf` field.  File reads and TOML
unmarshalling are external effects and enter as parameters. -/

/-- Go `configPath` constant (config package). -/
def configPath : String := "/etc/desktopimage/config.toml"

/-- Go `createDefaultConfig`'s template content (all fields commented
out). -/
def defaultConfig : String :=
  "# auto_grant_executable = false\n\n# [[Watcher]]\n# app_path = \"/path/to/app_directory\"\n# desktop_path = \"/path/to/desktop_directory\"\n# icon_path = \"/path/to/icon.png\"\n# categories = \"Application\"\n"

/-- The manager's pointer state.  The reload path only runs after a
successful initial load, when `cm.conf` is non-nil, so it always holds an
address here. -/
structure ConfHeap where
  heap : Nat → Config
  confAddr : Nat

/-- Go `(cm *ConfManager) reload()` (monitor.go lines 310-324): read the
config file, unmarshal it, and on success assign both fields through the
stored pointer — the object at `confAddr` is overwritten in place, the
pointer itself never changes.  Errors return before any assignment. -/
def reload (parse : String → Except String Config)
    (readRes : Except String String) (st : ConfHeap) :
    Except String ConfHeap :=
  match readRes with
  | .error e => .error e
  | .ok rf =>
    match parse rf with
    | .error e => .error e
    | .ok newConf =>
      .ok { st with
        heap := Function.update st.heap st.confAddr
          ⟨newConf.AutoGrantExecutable, newConf.Watcher⟩ }

/-- The property claim C3 asserts of a reload: the Config object the
manager pointed to beforehand is left unchanged (a fresh value is
installed rather than mutating the referenced object, so readers holding
the old reference are unaffected). -/
def reloadPreservesOldObject (parse : String → Except String Config)
    (readRes : Except String String) (st : ConfHeap) : Prop :=
  ∀ st', reload parse readRes st = Except.ok st' →
    st'.heap st.confAddr = st.heap st.confAddr

/-- Result of one config-watcher event iteration (monitor.go lines
285-297): the possibly updated state and whether the registered callbacks
were dispatched. -/
structure WatchOutcome where
  st : ConfHeap
  callbacksNotified : Bool

/-- The event arm of `(cm *ConfManager) watch`: a write/create event whose
base name equals the config file's base name triggers `reload`; the
callbacks are dispatched only when `reload` returned no error. -/
def watchStep (parse : String → Except String Config)
    (readRes : Except String String) (st : ConfHeap)
    (evName : String) (opWrite opCreate : Bool) : WatchOutcome :=
  if (opWrite || opCreate) &&
      (filepathBase evName == filepathBase configPath) then
    match reload parse readRes st with
    | .error _ => ⟨st, false⟩
    | .ok st' => ⟨st', true⟩
  else ⟨st, false⟩

/-- Outcome of Go `config.NewConfigManager` (monitor.go lines 200-237):
the stored config (`none` = nil pointer), whether the config-file watcher
goroutine was spawned (`go cm.watch(ctx)`, line 233 — reloads can only
ever happen when it was), and the returned error.  `fileExists` is the
`os.Stat` outcome; when the file is absent the default template is
written and then read back. -/
structure NewCMResult where
  conf : Option Config
  watchStarted : Bool
  err : Option String
deriving DecidableEq, Repr

/-- Go `config.NewConfigManager` (monitor.go lines 200-237). -/
def NewConfigManager (parse : String → Except String Config)
    (fileExists : Bool) (fileContent : String) : NewCMResult :=
  let content := if fileExists then fileContent else defaultConfig
  match parse content with
  | .error e => ⟨none, false, some e⟩
  | .ok config =>
    if valid (some config) then ⟨some config, true, none⟩
    else ⟨none, false, none⟩

/-- Go `(cm *ConfManager) GetConfig()` (monitor.go lines 239-241). -/
def GetConfig (r : NewCMResult) : Option Config := r.conf

/-- A TOML unmarshaller stub returning a fixed parse result, used to
instantiate theorems at concrete inputs. -/
def constParse (c : Config) : String → Except String Config :=
  fun _ => Except.ok c

/-- A concrete manager state: every address holds the empty configuration
and the manager points at address 0. -/
def heap0 : ConfHeap := ⟨fun _ => ⟨false, []⟩, 0⟩

/-! ## Reconciler state (Go `FManager`)

`fm.currentWatchers` maps an AppPath to the cancel handle of a loop that
`reloadWatchers` started; `StartWatchers` (lines 45-64) spawns its loops
without registering any handle.  Loops are identified by the order in
which they were spawned. -/

/-- Reconciler-visible state: the spawned-and-uncancelled loops (id and
rule), the registered cancel handles (AppPath to loop id), and the next
fresh loop id. -/
structure FmState where
  activeLoops : List (Nat × Watcher)
  currentWatchers : List (String × Nat)
  nextId : Nat
deriving DecidableEq, Repr

/-- Fresh loop ids `n, n+1, ...` paired with the rules, one per rule. -/
def numberFrom : Nat → List Watcher → List (Nat × Watcher)
  | _, [] => []
  | n, w :: ws => (n, w) :: numberFrom (n + 1) ws

/-- The all-idle initial state (process start). -/
def fmInit : FmState := ⟨[], [], 0⟩

/-- Go `(fm *FManager) StartWatchers` (monitor.go lines 45-64): a nil
config starts nothing; otherwise one goroutine per rule is spawned.  No
cancel handle is registered in `currentWatchers`. -/
def StartWatchers (st : FmState) (conf : Option Config) : FmState :=
  match conf with
  | none => st
  | some cf =>
    { st with
      activeLoops := st.activeLoops ++ numberFrom st.nextId cf.Watcher,
      nextId := st.nextId + cf.Watcher.length }

/-- Go map assignment `m[k] = v`: overwrite the key's entry or append. -/
def mapInsert (m : List (String × Nat)) (k : String) (v : Nat) :
    List (String × Nat) :=
  if m.any (fun p => p.1 == k) then
    m.map (fun p => if p.1 == k then (k, v) else p)
  else m ++ [(k, v)]

/-- One iteration of `reloadWatchers`' start loop (monitor.go lines
128-132): make a cancellable context, register its cancel handle under the
rule's AppPath, spawn the loop. -/
def startLoop (st : FmState) (w : Watcher) : FmState :=
  { activeLoops := st.activeLoops ++ [(st.nextId, w)],
    currentWatchers := mapInsert st.currentWatchers w.AppPath st.nextId,
    nextId := st.nextId + 1 }

/-- Go `(fm *FManager) reloadWatchers` (monitor.go lines 122-134): call
every cancel handle in `currentWatchers` (which stops exactly the loops
those handles control), reset the map, then start one new loop per rule of
the new configuration. -/
def reloadWatchers (st : FmState) (conf : Config) : FmState :=
  let cancelledIds := st.currentWatchers.map Prod.snd
  let st1 : FmState :=
    { activeLoops :=
        st.activeLoops.filter (fun l => !(cancelledIds.contains l.1)),
      currentWatchers := [],
      nextId := st.nextId }
  conf.Watcher.foldl startLoop st1

/-- A one-rule configuration used for concrete instantiations. -/
def oneRuleConf : Config := ⟨false, [⟨"/a", "/b", "", "Application"⟩]⟩

/-! ## Shutdown completion signalling

On cancellation every per-rule loop performs one blocking send on
`fm.closeCh` before returning (monitor.go line 93) and `(fm *FManager)
Close` performs exactly one receive (line 68).  The channel is unbuffered
(line 87), so a send completes only by rendezvous with a receive: the one
possible transition pairs one waiting loop with the single receive, after
which no further send can ever complete. -/

/-- Loops still blocked in their completion send, loops that completed it
(and hence exited), and whether `Close`'s single receive has happened. -/
structure ShutdownState where
  loopsWaiting : Nat
  loopsExited : Nat
  closeDone : Bool
deriving DecidableEq, Repr

/-- The only transition: a waiting loop's send rendezvouses with `Close`'s
receive, which is thereby consumed. -/
inductive ShutdownStep : ShutdownState → ShutdownState → Prop
  | rendezvous (w e : Nat) :
      ShutdownStep ⟨w + 1, e, false⟩ ⟨w, e + 1, true⟩

/-- Reachability in the shutdown protocol. -/
def ShutdownReach : ShutdownState → ShutdownState → Prop :=
  Relation.ReflTransGen ShutdownStep

/-- The completion property claim C8 asserts for `n` rules: some reachable
state has every loop done signalling and exited. -/
def allLoopsExit (n : Nat) : Prop :=
  ∃ s, ShutdownReach ⟨n, 0, false⟩ s ∧
    s.loopsWaiting = 0 ∧ s.loopsExited = n

/-- Claim C2: for every (non-nil) Configuration value, `valid` returns true
iff the rule collection is non-empty and the first rule has non-empty
source path, output path and category; rules after index 0 do not affect
the result. -/
theorem valid_iff_first_rule_complete :
    (∀ c : Config,
      valid (some c) = true ↔
        ∃ w0 ws, c.Watcher = w0 :: ws ∧
          w0.AppPath ≠ "" ∧ w0.DesktopPath ≠ "" ∧ w0.Categories ≠ "") ∧
    (∀ (g g' : Bool) (w0 : Watcher) (ws ws' : List Watcher),
      valid (some ⟨g, w0 :: ws⟩) = valid (some ⟨g', w0 :: ws'⟩)) := by
  constructor
  · intro c
    cases hc : c.Watcher with
    | nil => simp [valid, hc]
    | cons w0 ws =>
      simp only [valid, hc, Bool.and_eq_true, bne_iff_ne, ne_eq]
      constructor
      · rintro ⟨⟨h1, h2⟩, h3⟩
        exact ⟨w0, ws, rfl, h1, h2, h3⟩
      · rintro ⟨w0', ws', he, h1, h2, h3⟩
        cases he
        exact ⟨⟨h1, h2⟩, h3⟩
  · intro g g' w0 ws ws'
    simp [valid]

/-! ## Line-splitting and field-extraction lemmas -/

theorem soc_line (sep : Char) (a r : List Char) (h : sep ∉ a) :
    splitOnChar sep (a ++ sep :: r) = a :: splitOnChar sep r := by
  induction a with
  | nil => simp [splitOnChar]
  | cons c a ih =>
    have hc : ¬ c = sep := fun hceq => h (by simp [hceq])
    have ha : sep ∉ a := fun hm => h (List.mem_cons_of_mem _ hm)
    simp only [List.cons_append, splitOnChar, List.append_eq, if_neg hc]
    rw [ih ha]
    simp

theorem soc_unlines (ls : List (List Char)) (h : ∀ l ∈ ls, '\n' ∉ l) :
    splitOnChar '\n' (unlines ls) = ls ++ [[]] := by
  induction ls with
  | nil => rfl
  | cons l ls ih =>
    have h1 : '\n' ∉ l := h l (by simp)
    have h2 : ∀ x ∈ ls, '\n' ∉ x := fun x hx => h x (by simp [hx])
    show splitOnChar '\n' (l ++ '\n' :: unlines ls) = _
    rw [soc_line _ _ _ h1, ih h2]
    rfl

theorem trimSuffix_append (X s : String) : trimSuffix (X ++ s) s = X := by
  unfold trimSuffix
  rw [String.data_append]
  have hsuf : s.data.isSuffixOf (X.data ++ s.data) = true := by
    rw [List.isSuffixOf_iff_suffix]
    exact List.suffix_append _ _
  rw [if_pos hsuf]
  have hlen : (X.data ++ s.data).length - s.data.length = X.data.length := by
    simp
  rw [hlen, List.take_left]

/-- The generated content, split at newlines, is exactly the expected line
list (no icon configured). -/
theorem content_lines_no_icon (X : String) (w : Watcher)
    (hic : w.IconPath = "")
    (hX : '\n' ∉ X.data) (hA : '\n' ∉ w.AppPath.data)
    (hC : '\n' ∉ w.Categories.data) :
    splitOnChar '\n' (createDesktopFileContent X w).data =
      ["[Desktop Entry]".data,
       "Type".data ++ '=' :: "Application".data,
       "Name".data ++ '=' :: X.data,
       "Exec".data ++ '=' ::
         (w.AppPath.data ++ '/' :: (X.data ++ ".AppImage".data)),
       "Terminal".data ++ '=' :: "false".data,
       "Categories".data ++ '=' :: w.Categories.data, []] := by
  have hdata : (createDesktopFileContent X w).data =
      unlines ["[Desktop Entry]".data,
        "Type".data ++ '=' :: "Application".data,
        "Name".data ++ '=' :: X.data,
        "Exec".data ++ '=' ::
          (w.AppPath.data ++ '/' :: (X.data ++ ".AppImage".data)),
        "Terminal".data ++ '=' :: "false".data,
        "Categories".data ++ '=' :: w.Categories.data] := by
    simp [createDesktopFileContent, hic, unlines, String.data_append]
  rw [hdata, soc_unlines]
  · simp
  · rintro l hl
    simp only [List.mem_cons, List.not_mem_nil, or_false] at hl
    rcases hl with h | h | h | h | h | h <;> subst h <;>
      simp [List.mem_append, hX, hA, hC]

/-- The generated content, split at newlines, is exactly the expected line
list (icon configured). -/
theorem content_lines_icon (X : String) (w : Watcher)
    (hic : ¬ w.IconPath = "")
    (hX : '\n' ∉ X.data) (hA : '\n' ∉ w.AppPath.data)
    (hC : '\n' ∉ w.Categories.data) (hI : '\n' ∉ w.IconPath.data) :
    splitOnChar '\n' (createDesktopFileContent X w).data =
      ["[Desktop Entry]".data,
       "Type".data ++ '=' :: "Application".data,
       "Name".data ++ '=' :: X.data,
       "Exec".data ++ '=' ::
         (w.AppPath.data ++ '/' :: (X.data ++ ".AppImage".data)),
       "Terminal".data ++ '=' :: "false".data,
       "Categories".data ++ '=' :: w.Categories.data,
       "Icon".data ++ '=' :: w.IconPath.data, []] := by
  have hdata : (createDesktopFileContent X w).data =
      unlines ["[Desktop Entry]".data,
        "Type".data ++ '=' :: "Application".data,
        "Name".data ++ '=' :: X.data,
        "Exec".data ++ '=' ::
          (w.AppPath.data ++ '/' :: (X.data ++ ".AppImage".data)),
        "Terminal".data ++ '=' :: "false".data,
        "Categories".data ++ '=' :: w.Categories.data,
        "Icon".data ++ '=' :: w.IconPath.data] := by
    simp [createDesktopFileContent, hic, unlines, String.data_append]
  rw [hdata, soc_unlines]
  · simp
  · rintro l hl
    simp only [List.mem_cons, List.not_mem_nil, or_false] at hl
    rcases hl with h | h | h | h | h | h | h <;> subst h <;>
      simp [List.mem_append, hX, hA, hC, hI]

/-- Parsing the generated content recovers the supplied fields (no icon
configured: no `Icon` line is found). -/
theorem parse_content_no_icon (X : String) (w : Watcher)
    (hic : w.IconPath = "")
    (hX : '\n' ∉ X.data) (hA : '\n' ∉ w.AppPath.data)
    (hC : '\n' ∉ w.Categories.data) :
    parseDesktopEntry (createDesktopFileContent X w) =
      ⟨some "Application".data, some X.data,
       some (w.AppPath.data ++ '/' :: (X.data ++ ".AppImage".data)),
       some "false".data, some w.Categories.data, none⟩ := by
  unfold parseDesktopEntry
  rw [content_lines_no_icon X w hic hX hA hC]
  simp [findField, dropKV]

/-- Parsing the generated content recovers the supplied fields (icon
configured: the `Icon` line carries the rule's icon path). -/
theorem parse_content_icon (X : String) (w : Watcher)
    (hic : ¬ w.IconPath = "")
    (hX : '\n' ∉ X.data) (hA : '\n' ∉ w.AppPath.data)
    (hC : '\n' ∉ w.Categories.data) (hI : '\n' ∉ w.IconPath.data) :
    parseDesktopEntry (createDesktopFileContent X w) =
      ⟨some "Application".data, some X.data,
       some (w.AppPath.data ++ '/' :: (X.data ++ ".AppImage".data)),
       some "false".data, some w.Categories.data,
       some w.IconPath.data⟩ := by
  unfold parseDesktopEntry
  rw [content_lines_icon X w hic hX hA hC hI]
  simp [findField, dropKV]

/-- Claim C1: a create event for a file named `X.AppImage` in a rule's
source directory makes the loop body write exactly one desktop-entry file,
at `DesktopPath/X.desktop`, whose parsed content has type `Application`,
name `X`, exec `AppPath/X.AppImage`, terminal `false`, the rule's
categories, and an icon line exactly when the rule configures an icon
path.  (Side conditions: the event name indeed has base `X.AppImage`, the
output directory is non-empty and already clean, and the strings involved
contain no newline, as any real path does.) -/
theorem create_event_writes_single_desktop_entry
    (w : Watcher) (n X : String) (ow orm orn och fileOpOk dbOk : Bool)
    (hsuf : hasSuffix n ".AppImage" = true)
    (hbase : filepathBase n = X ++ ".AppImage")
    (hD : ¬ w.DesktopPath = "")
    (hclean : pathClean (w.DesktopPath ++ "/" ++ (X ++ ".desktop")) =
      w.DesktopPath ++ "/" ++ (X ++ ".desktop"))
    (hX : '\n' ∉ X.data) (hA : '\n' ∉ w.AppPath.data)
    (hC : '\n' ∉ w.Categories.data) (hI : '\n' ∉ w.IconPath.data) :
    writeActions (startWatchingStep w
        (LoopInput.event ⟨n, ⟨true, ow, orm, orn, och⟩⟩ fileOpOk dbOk)).actions =
      [(w.DesktopPath ++ "/" ++ (X ++ ".desktop"),
        createDesktopFileContent X w)] ∧
    (parseDesktopEntry (createDesktopFileContent X w)).typeField =
      some "Application".data ∧
    (parseDesktopEntry (createDesktopFileContent X w)).nameField =
      some X.data ∧
    (parseDesktopEntry (createDesktopFileContent X w)).execField =
      some (w.AppPath ++ "/" ++ (X ++ ".AppImage")).data ∧
    (parseDesktopEntry (createDesktopFileContent X w)).terminalField =
      some "false".data ∧
    (parseDesktopEntry (createDesktopFileContent X w)).categoriesField =
      some w.Categories.data ∧
    (w.IconPath = "" →
      (parseDesktopEntry (createDesktopFileContent X w)).iconField = none) ∧
    (¬ w.IconPath = "" →
      (parseDesktopEntry (createDesktopFileContent X w)).iconField =
        some w.IconPath.data) := by
  have happ : trimSuffix (filepathBase n) ".AppImage" = X := by
    rw [hbase]; exact trimSuffix_append X ".AppImage"
  have hne : ¬ (X ++ ".desktop") = "" := by
    intro h0
    have h1 := congrArg String.data h0
    simp [String.data_append] at h1
  have hpath : createDesktopFilePath X w =
      w.DesktopPath ++ "/" ++ (X ++ ".desktop") := by
    unfold createDesktopFilePath filepathJoin
    rw [if_neg (by simp [hD]), if_neg hD, if_neg hne, hclean]
  refine ⟨?_, ?_⟩
  · cases fileOpOk <;>
      simp [startWatchingStep, hsuf, happ, writeActions, hpath]
  · by_cases hic : w.IconPath = ""
    · rw [parse_content_no_icon X w hic hX hA hC]
      exact ⟨rfl, rfl, by simp [String.data_append], rfl, rfl,
        fun _ => rfl, fun hni => absurd hic hni⟩
    · rw [parse_content_icon X w hic hX hA hC hI]
      exact ⟨rfl, rfl, by simp [String.data_append], rfl, rfl,
        fun he => absurd he hic, fun _ => rfl⟩

/-- Witness for claim C1 at the spec's own example: rule
`{app_path: "/a", desktop_path: "/b", categories: "Application"}` and the
file `/a/Foo.AppImage`. -/
theorem create_event_writes_single_desktop_entry_witness :
    hasSuffix "/a/Foo.AppImage" ".AppImage" = true ∧
    pathClean ("/b" ++ "/" ++ ("Foo" ++ ".desktop")) =
      "/b" ++ "/" ++ ("Foo" ++ ".desktop") ∧
    writeActions (startWatchingStep ⟨"/a", "/b", "", "Application"⟩
        (LoopInput.event
          ⟨"/a/Foo.AppImage", ⟨true, false, false, false, false⟩⟩
          true true)).actions =
      [("/b" ++ "/" ++ ("Foo" ++ ".desktop"),
        createDesktopFileContent "Foo" ⟨"/a", "/b", "", "Application"⟩)] :=
  ⟨by decide, by decide,
   (create_event_writes_single_desktop_entry ⟨"/a", "/b", "", "Application"⟩
      "/a/Foo.AppImage" "Foo" false false false false true true
      (by decide) (by decide) (by decide) (by decide)
      (by decide) (by decide) (by decide) (by decide)).1⟩

/-- Claim C5: writing a rule's desktop-entry file for an application name
and parsing the written content back recovers exactly the name, executable
path, category and (when supplied) icon that were used to write it.  (Side
condition: the fields contain no newline, as any real path does.) -/
theorem desktop_entry_round_trip (appName : String) (w : Watcher)
    (hX : '\n' ∉ appName.data) (hA : '\n' ∉ w.AppPath.data)
    (hC : '\n' ∉ w.Categories.data) (hI : '\n' ∉ w.IconPath.data) :
    (parseDesktopEntry (createDesktopFileContent appName w)).nameField =
      some appName.data ∧
    (parseDesktopEntry (createDesktopFileContent appName w)).execField =
      some (w.AppPath ++ "/" ++ (appName ++ ".AppImage")).data ∧
    (parseDesktopEntry (createDesktopFileContent appName w)).categoriesField =
      some w.Categories.data ∧
    (¬ w.IconPath = "" →
      (parseDesktopEntry (createDesktopFileContent appName w)).iconField =
        some w.IconPath.data) ∧
    (w.IconPath = "" →
      (parseDesktopEntry (createDesktopFileContent appName w)).iconField =
        none) := by
  by_cases hic : w.IconPath = ""
  · rw [parse_content_no_icon appName w hic hX hA hC]
    exact ⟨rfl, by simp [String.data_append], rfl,
      fun hni => absurd hic hni, fun _ => rfl⟩
  · rw [parse_content_icon appName w hic hX hA hC hI]
    exact ⟨rfl, by simp [String.data_append], rfl,
      fun _ => rfl, fun he => absurd he hic⟩

/-- Witness for claim C5: concrete rule with an icon path, application
name `Foo`. -/
theorem desktop_entry_round_trip_witness :
    ('\n' ∉ "Foo".data) ∧
    (parseDesktopEntry (createDesktopFileContent "Foo"
        ⟨"/a", "/b", "/i.png", "App"⟩)).nameField = some "Foo".data :=
  ⟨by decide,
   (desktop_entry_round_trip "Foo" ⟨"/a", "/b", "/i.png", "App"⟩
      (by decide) (by decide) (by decide) (by decide)).1⟩

/-- Claim C6: for every filesystem event a per-rule watch loop processes,
whatever the outcome of the file create/delete and of the desktop-database
refresh, the loop-body iteration keeps looping (only the cancellation arm
returns), and running the loop on the event followed by further inputs
processes those further inputs. -/
theorem event_errors_never_stop_loop :
    ∀ (w : Watcher) (ev : Event) (fileOpOk dbOk : Bool)
      (rest : List LoopInput),
      (startWatchingStep w (LoopInput.event ev fileOpOk dbOk)).control =
        Control.cont ∧
      runLoop w (LoopInput.event ev fileOpOk dbOk :: rest) =
        ((startWatchingStep w (LoopInput.event ev fileOpOk dbOk)).actions ++
            (runLoop w rest).1,
          (runLoop w rest).2) := by
  intro w ev fileOpOk dbOk rest
  have hc : (startWatchingStep w (LoopInput.event ev fileOpOk dbOk)).control =
      Control.cont := by
    simp only [startWatchingStep]
    split_ifs <;> rfl
  refine ⟨hc, ?_⟩
  rcases hs : startWatchingStep w (LoopInput.event ev fileOpOk dbOk) with
    ⟨ctl, acts⟩
  rw [hs] at hc
  have hctl : ctl = Control.cont := hc
  subst hctl
  simp only [runLoop]
  rw [hs]

/-! ## Config reload: mutation, failure and validity (claims C3, C7, C9) -/

/-- Counterexample to claim C3: a successful reload does not install a
fresh Configuration value — at a concrete state and parse result, the
Config object the manager already pointed to is mutated in place (its
content changes from the old to the newly parsed value). -/
theorem reload_mutates_in_place_counterexample :
    ¬ reloadPreservesOldObject (constParse ⟨true, []⟩)
        (Except.ok "") heap0 := by
  intro h
  have h0 := h _ rfl
  simp [heap0, Function.update] at h0

/-- Claim C3 as amended: every successful reload installs the newly parsed
values by mutating the existing Configuration object in place — the stored
address never changes, the object at that address now holds the parsed
fields (so concurrent readers holding the same reference observe the new
values), and no other object is touched. -/
theorem reload_installs_by_in_place_mutation
    (parse : String → Except String Config) (rf : String)
    (st : ConfHeap) (c : Config) (h : parse rf = Except.ok c) :
    ∃ st', reload parse (Except.ok rf) st = Except.ok st' ∧
      st'.confAddr = st.confAddr ∧
      st'.heap st.confAddr = c ∧
      ∀ a, a ≠ st.confAddr → st'.heap a = st.heap a := by
  refine ⟨ConfHeap.mk (Function.update st.heap st.confAddr
      ⟨c.AutoGrantExecutable, c.Watcher⟩) st.confAddr, ?_, rfl, ?_, ?_⟩
  · simp [reload, h]
  · simp [Function.update]
  · intro a ha
    simp [Function.update, ha]

/-- Witness for the amended claim C3 at a concrete state and parse
result. -/
theorem reload_installs_by_in_place_mutation_witness :
    constParse (⟨true, []⟩ : Config) "x" = Except.ok (⟨true, []⟩ : Config) ∧
    (∃ st', reload (constParse ⟨true, []⟩) (Except.ok "x") heap0 =
        Except.ok st' ∧
      st'.confAddr = heap0.confAddr ∧
      st'.heap heap0.confAddr = ⟨true, []⟩ ∧
      ∀ a, a ≠ heap0.confAddr → st'.heap a = heap0.heap a) :=
  ⟨rfl, reload_installs_by_in_place_mutation (constParse ⟨true, []⟩) "x"
    heap0 ⟨true, []⟩ rfl⟩

/-- Helper: when `reload` fails, the watch arm keeps the old state and
does not dispatch the callbacks. -/
theorem watchStep_of_reload_error
    (parse : String → Except String Config)
    (readRes : Except String String) (st : ConfHeap)
    (evName : String) (opWrite opCreate : Bool) (e : String)
    (h : reload parse readRes st = Except.error e) :
    watchStep parse readRes st evName opWrite opCreate = ⟨st, false⟩ := by
  unfold watchStep
  rw [h]
  split_ifs <;> rfl

/-- Claim C7: when a configuration reload fails — the file cannot be read,
or its content fails to parse — the stored Configuration is left unchanged
and no registered callback is dispatched for that event. -/
theorem reload_failure_keeps_config_and_skips_callbacks
    (parse : String → Except String Config)
    (readRes : Except String String) (st : ConfHeap)
    (evName : String) (opWrite opCreate : Bool)
    (h : (∃ e, readRes = Except.error e) ∨
      (∃ rf e, readRes = Except.ok rf ∧ parse rf = Except.error e)) :
    watchStep parse readRes st evName opWrite opCreate = ⟨st, false⟩ := by
  rcases h with ⟨e, he⟩ | ⟨rf, e, hrf, hp⟩
  · exact watchStep_of_reload_error parse readRes st evName opWrite
      opCreate e (by simp [reload, he])
  · exact watchStep_of_reload_error parse readRes st evName opWrite
      opCreate e (by simp [reload, hrf, hp])

/-- Witness for claim C7: an unreadable file during a qualifying event. -/
theorem reload_failure_keeps_config_and_skips_callbacks_witness :
    ((∃ e, (Except.error "boom" : Except String String) =
        Except.error e) ∨
      (∃ rf e, (Except.error "boom" : Except String String) =
          Except.ok rf ∧ constParse ⟨true, []⟩ rf = Except.error e)) ∧
    watchStep (constParse ⟨true, []⟩) (Except.error "boom") heap0
      configPath true false = ⟨heap0, false⟩ :=
  ⟨Or.inl ⟨"boom", rfl⟩,
   reload_failure_keeps_config_and_skips_callbacks (constParse ⟨true, []⟩)
     (Except.error "boom") heap0 configPath true false
     (Or.inl ⟨"boom", rfl⟩)⟩

/-- Claim C9: the reload path applies no validity check — any successfully
parsed configuration is installed as the stored Configuration, and when
the parsed value is unusable the stored Configuration is unusable
afterwards, so the "stored Configuration is usable" invariant of the
initial load is not preserved across reloads. -/
theorem reload_skips_validity_check
    (parse : String → Except String Config) (rf : String)
    (st : ConfHeap) (c : Config) (h : parse rf = Except.ok c) :
    ∃ st', reload parse (Except.ok rf) st = Except.ok st' ∧
      st'.heap st'.confAddr = c ∧
      (valid (some c) = false →
        valid (some (st'.heap st'.confAddr)) = false) := by
  refine ⟨ConfHeap.mk (Function.update st.heap st.confAddr
      ⟨c.AutoGrantExecutable, c.Watcher⟩) st.confAddr, ?_, ?_, ?_⟩
  · simp [reload, h]
  · simp [Function.update]
  · intro hv
    simpa [Function.update] using hv

/-- Witness for claim C9: a state whose stored configuration is usable
reloads to a file parsing to the empty (unusable) configuration, which is
installed. -/
theorem reload_skips_validity_check_witness :
    constParse (⟨false, []⟩ : Config) "" = Except.ok (⟨false, []⟩ : Config) ∧
    valid (some (⟨false, []⟩ : Config)) = false ∧
    valid (some ((⟨fun _ => oneRuleConf, 0⟩ : ConfHeap).heap 0)) = true ∧
    (∃ st', reload (constParse ⟨false, []⟩) (Except.ok "")
        (⟨fun _ => oneRuleConf, 0⟩ : ConfHeap) = Except.ok st' ∧
      st'.heap st'.confAddr = ⟨false, []⟩ ∧
      (valid (some (⟨false, []⟩ : Config)) = false →
        valid (some (st'.heap st'.confAddr)) = false)) :=
  ⟨rfl, by decide, by decide,
   reload_skips_validity_check (constParse ⟨false, []⟩) ""
     ⟨fun _ => oneRuleConf, 0⟩ ⟨false, []⟩ rfl⟩

/-- Claim C10: when the configuration file is absent (the written default
template parses to an unusable configuration) or its content parses to an
unusable configuration, the constructor returns success with a nil stored
Configuration and does not start the config-file watcher goroutine;
consequently GetConfig returns nil and StartWatchers starts no loops.
Since the watcher goroutine is the only caller of `reload`, no reload
ever occurs in such a run. -/
theorem invalid_initial_config_inert
    (parse : String → Except String Config)
    (fileExists : Bool) (fileContent : String) (c : Config)
    (hparse : parse (if fileExists then fileContent else defaultConfig) =
      Except.ok c)
    (hvalid : valid (some c) = false) :
    NewConfigManager parse fileExists fileContent = ⟨none, false, none⟩ ∧
    GetConfig (NewConfigManager parse fileExists fileContent) = none ∧
    (StartWatchers fmInit
        (GetConfig (NewConfigManager parse fileExists fileContent))
      ).activeLoops = [] := by
  have h1 : NewConfigManager parse fileExists fileContent =
      ⟨none, false, none⟩ := by
    simp [NewConfigManager, hparse, hvalid]
  exact ⟨h1, by simp [GetConfig, h1],
    by simp [GetConfig, h1, StartWatchers, fmInit]⟩

/-- Witness for claim C10: an absent configuration file whose written
default template parses to the empty configuration. -/
theorem invalid_initial_config_inert_witness :
    constParse (⟨false, []⟩ : Config)
        (if false then "" else defaultConfig) =
      Except.ok (⟨false, []⟩ : Config) ∧
    valid (some (⟨false, []⟩ : Config)) = false ∧
    NewConfigManager (constParse ⟨false, []⟩) false "" =
      ⟨none, false, none⟩ ∧
    GetConfig (NewConfigManager (constParse ⟨false, []⟩) false "") =
      none ∧
    (StartWatchers fmInit
        (GetConfig (NewConfigManager (constParse ⟨false, []⟩) false ""))
      ).activeLoops = [] := by
  have h := invalid_initial_config_inert (constParse ⟨false, []⟩) false ""
    ⟨false, []⟩ rfl (by decide)
  exact ⟨rfl, by decide, h.1, h.2.1, h.2.2⟩

/-! ## Reconciliation (claim C4) -/

theorem numberFrom_map_snd : ∀ (n : Nat) (ws : List Watcher),
    (numberFrom n ws).map Prod.snd = ws := by
  intro n ws
  induction ws generalizing n with
  | nil => rfl
  | cons w ws ih => simp [numberFrom, ih]

theorem foldl_startLoop_active (ws : List Watcher) :
    ∀ s : FmState, (ws.foldl startLoop s).activeLoops =
      s.activeLoops ++ numberFrom s.nextId ws := by
  induction ws with
  | nil => intro s; simp [numberFrom]
  | cons w ws ih =>
    intro s
    show (ws.foldl startLoop (startLoop s w)).activeLoops = _
    rw [ih (startLoop s w)]
    simp [startLoop, numberFrom]

/-- Counterexample to claim C4: starting the pool on a one-rule
configuration and then reconciling onto the same one-rule configuration
leaves two active loops, not one — the initial loop was started without a
registered cancellation handle, so the reconciler does not cancel it and
the active set is not one-to-one with the new rule set. -/
theorem reload_misses_initial_loops_counterexample :
    (reloadWatchers (StartWatchers fmInit (some oneRuleConf)) oneRuleConf
      ).activeLoops.length = 2 ∧
    oneRuleConf.Watcher.length = 1 ∧
    (reloadWatchers (StartWatchers fmInit (some oneRuleConf)) oneRuleConf
      ).activeLoops.length ≠ oneRuleConf.Watcher.length := by
  decide

/-- Claim C4 as amended: on a configuration change the reconciler cancels
exactly the loops whose cancellation handles are registered in
`currentWatchers` (those started by a previous reconciliation — loops
started at process start are not registered and survive), discards the
handles, and starts exactly one new loop per rule of the new Configuration
(in rule order, with fresh ids). -/
theorem reconciler_cancels_only_registered_loops
    (st : FmState) (conf : Config) :
    (reloadWatchers st conf).activeLoops =
      st.activeLoops.filter
        (fun l => !((st.currentWatchers.map Prod.snd).contains l.1)) ++
      numberFrom st.nextId conf.Watcher ∧
    (numberFrom st.nextId conf.Watcher).map Prod.snd = conf.Watcher := by
  constructor
  · simp only [reloadWatchers]
    rw [foldl_startLoop_active]
  · exact numberFrom_map_snd st.nextId conf.Watcher

/-! ## Shutdown signalling (claim C8) -/

theorem shutdown_no_step_after_close {m e : Nat} {s' : ShutdownState}
    (h : ShutdownStep ⟨m, e, true⟩ s') : False := by
  cases h

theorem shutdown_reach_of_closeDone {m e : Nat} {s : ShutdownState}
    (h : ShutdownReach ⟨m, e, true⟩ s) : s = ⟨m, e, true⟩ := by
  induction h with
  | refl => rfl
  | tail hab hbc ih =>
    rw [ih] at hbc
    exact (shutdown_no_step_after_close hbc).elim

theorem shutdown_exited_le_one (n : Nat) (s : ShutdownState)
    (h : ShutdownReach ⟨n, 0, false⟩ s) : s.loopsExited ≤ 1 := by
  rcases Relation.ReflTransGen.cases_head h with heq | ⟨b, hstep, hreach⟩
  · rw [← heq]
    exact Nat.zero_le 1
  · cases hstep with
    | rendezvous w e =>
      rw [shutdown_reach_of_closeDone hreach]

/-- Counterexample to claim C8: with two rules it is impossible that every
spawned per-rule loop completes its completion signal and exits — `Close`
receives from the completion channel exactly once, so at most one loop's
blocking send can ever rendezvous; the other loop blocks forever. -/
theorem two_loops_cannot_both_exit : ¬ allLoopsExit 2 := by
  rintro ⟨s, hreach, hw, he⟩
  have hle := shutdown_exited_le_one 2 s hreach
  omega

/-- Claim C8 as amended: after cancellation, at most one per-rule loop can
ever complete its completion send and exit (`Close` receives exactly
once); with a single rule that one loop does exit and signal completion,
but with two or more rules the remaining loops stay blocked on the send
forever and are abandoned. -/
theorem shutdown_at_most_one_completion :
    (∀ (n : Nat) (s : ShutdownState),
      ShutdownReach ⟨n, 0, false⟩ s → s.loopsExited ≤ 1) ∧
    allLoopsExit 1 := by
  refine ⟨shutdown_exited_le_one, ⟨⟨0, 1, true⟩, ?_, rfl, rfl⟩⟩
  exact Relation.ReflTransGen.single (ShutdownStep.rendezvous 0 0)

/-- Witness for the amended claim C8: the state reached from two waiting
loops after the single possible rendezvous has at most one exited loop. -/
theorem shutdown_at_most_one_completion_witness :
    ShutdownReach ⟨2, 0, false⟩ ⟨1, 1, true⟩ ∧
    (⟨1, 1, true⟩ : ShutdownState).loopsExited ≤ 1 := by
  have h : ShutdownReach ⟨2, 0, false⟩ ⟨1, 1, true⟩ :=
    Relation.ReflTransGen.single (ShutdownStep.rendezvous 1 0)
  exact ⟨h, shutdown_at_most_one_completion.1 2 ⟨1, 1, true⟩ h⟩

end DesktopImage
